import Mathlib

/-!
Verification of the two core algorithms of the anytype-cli command-line
client: identifier resolution (`ResolveSpace`, package internal/spaces) and
adaptive table rendering (`Table.String` with `Truncate`, package
internal/output).

Modelling conventions, fixed for the whole file:
* Go strings are modelled as lists of characters (`GoStr`); Go's byte
  length `len(s)` becomes the character count, which agrees on the ASCII
  data the repository produces.
* `strings.EqualFold` is modelled as equality after `strings.ToLower`,
  which agrees with Go's simple case folding on the data in scope.
* A Go panic (the negative slice bound reachable in `Truncate`) is
  modelled by `Option`: `none` marks a panic, `some` a normal return.
* `ResolveSpace` returns `(string, error)` in Go; this is modelled as
  `Except`, with `Except.error` the non-nil-error return and `Except.ok`
  the nil-error return.
-/

/-- Go strings, modelled as their sequence of characters. -/
abbrev GoStr := List Char

/-- Embed a Lean string literal into the Go-string model. -/
def gs (s : String) : GoStr := s.toList

/-- strings.ToLower: lower-case every character. -/
def goToLower (s : GoStr) : GoStr := s.map Char.toLower

/-- strings.EqualFold, modelled as equality after lower-casing. -/
def goEqualFold (a b : GoStr) : Bool := goToLower a == goToLower b

/-- strings.Contains: contiguous-substring (infix) test.  Note that the
empty string is contained in every string. -/
def goContains (s substr : GoStr) : Bool := decide (substr <:+: s)

/-- A space as the resolver sees it (the fields of anytype.Space that
ResolveSpace reads): an opaque ID and a mutable, non-unique name. -/
structure Space where
  ID : GoStr
  Name : GoStr
deriving DecidableEq

/-- The text of ErrSpaceNotFound. -/
def ErrSpaceNotFound : GoStr := gs "space not found"

/-- The single-quote character used by the disambiguation message,
written via its code point. -/
def quoteChar : GoStr := [Char.ofNat 39]

/-- One per-match line of the disambiguation message. -/
def matchLine (s : Space) : GoStr :=
  gs "\n  - " ++ quoteChar ++ s.Name ++ quoteChar ++ gs " (ID: " ++ s.ID ++ gs ")"

/-- Leading part of the disambiguation message. -/
def ambiguousHeader (input : GoStr) : GoStr :=
  ErrSpaceNotFound ++ gs ": multiple spaces matched " ++ quoteChar ++ input ++ quoteChar
    ++ gs ", please use space ID or a more specific name. Matched spaces:"

/-- The suffix counting omitted matches. -/
def moreSuffix (n : Nat) : GoStr := gs "\n  ... and " ++ gs (toString n) ++ gs " more"

/-- The multiple-match error message of ResolveSpace: the Go loop appends a
line only while i < 5, i.e. for the first five matches, and appends the
omitted-count suffix exactly when more than five matched. -/
def ambiguousMsg (input : GoStr) (matched : List Space) : GoStr :=
  ambiguousHeader input
    ++ ((matched.take 5).map matchLine).flatten
    ++ (if 5 < matched.length then moreSuffix (matched.length - 5) else [])

/-- internal/spaces.ResolveSpace, after the backend snapshot `spaces` has
been fetched.  The four steps of the Go function in order: first space
whose ID equals the input; first space whose name case-insensitively
equals the input; the partial matches by lower-cased substring, resolving
a unique match, erroring on several; and the pass-through fallback
returning the input itself with a nil error. -/
def ResolveSpace (spaces : List Space) (spaceIdOrName : GoStr) :
    Except GoStr GoStr :=
  match spaces.find? (fun s => s.ID == spaceIdOrName) with
  | some s => Except.ok s.ID
  | none =>
    match spaces.find? (fun s => goEqualFold s.Name spaceIdOrName) with
    | some s => Except.ok s.ID
    | none =>
      match spaces.filter (fun s =>
          goContains (goToLower s.Name) (goToLower spaceIdOrName)) with
      | [m] => Except.ok m.ID
      | [] => Except.ok spaceIdOrName
      | matchedSpaces => Except.error (ambiguousMsg spaceIdOrName matchedSpaces)

deriving instance DecidableEq for Except

/-- C1: if the input is byte-for-byte equal to the id of some candidate,
ResolveSpace resolves to that candidate's id, no matter what the other
candidates' names are: the ID scan is the first step and returns
immediately. -/
theorem resolveSpace_exact_id (spaces : List Space) (input : GoStr) (s : Space)
    (hs : s ∈ spaces) (hid : s.ID = input) :
    ResolveSpace spaces input = Except.ok s.ID := by
  have hsome : (spaces.find? (fun t => t.ID == input)).isSome := by
    rw [List.find?_isSome]
    exact ⟨s, hs, by simp [hid]⟩
  obtain ⟨t, ht⟩ := Option.isSome_iff_exists.mp hsome
  have htid : t.ID = input := by simpa using List.find?_some ht
  rw [ResolveSpace, ht]
  show Except.ok t.ID = Except.ok s.ID
  rw [htid, hid]

/-- Witness for C1: the input "a1" equals the second candidate's id while
the FIRST candidate's name is also "a1"; the id still wins. -/
theorem resolveSpace_exact_id_witness :
    ResolveSpace [⟨gs "b2", gs "a1"⟩, ⟨gs "a1", gs "Alpha"⟩] (gs "a1") =
      Except.ok (gs "a1") := by
  exact resolveSpace_exact_id _ _ ⟨gs "a1", gs "Alpha"⟩ (by simp) rfl

/-- C7: when no step matches anything - no id equality, no case-insensitive
name equality, no lower-cased substring match - ResolveSpace returns the
original input with a nil error: a deliberate pass-through. -/
theorem resolveSpace_fallback (spaces : List Space) (input : GoStr)
    (h1 : ∀ s ∈ spaces, s.ID ≠ input)
    (h2 : ∀ s ∈ spaces, goEqualFold s.Name input = false)
    (h3 : ∀ s ∈ spaces, goContains (goToLower s.Name) (goToLower input) = false) :
    ResolveSpace spaces input = Except.ok input := by
  have f1 : spaces.find? (fun s => s.ID == input) = none := by
    rw [List.find?_eq_none]; intro x hx; simpa using h1 x hx
  have f2 : spaces.find? (fun s => goEqualFold s.Name input) = none := by
    rw [List.find?_eq_none]; intro x hx; simp [h2 x hx]
  have f3 : spaces.filter
      (fun s => goContains (goToLower s.Name) (goToLower input)) = [] := by
    rw [List.filter_eq_nil_iff]; intro x hx; simp [h3 x hx]
  rw [ResolveSpace, f1, f2, f3]

/-- Witness for C7: "zzz" matches nothing against a single candidate named
Alpha and is passed through unresolved. -/
theorem resolveSpace_fallback_witness :
    ResolveSpace [⟨gs "a1", gs "Alpha"⟩] (gs "zzz") = Except.ok (gs "zzz") := by
  exact resolveSpace_fallback _ _ (by decide) (by decide) (by decide)

/-- Counterexample for C5 as the spec words it: the first candidate is the
unique case-insensitive name match for "hit" (its name is "hit", the other
candidate's name is "other"), yet ResolveSpace does not return its id
"zzz", because the second candidate's ID equals the input and the ID scan
runs first. -/
theorem resolveSpace_name_match_cex :
    ((([⟨gs "zzz", gs "hit"⟩, ⟨gs "hit", gs "other"⟩] : List Space).filter
        (fun s => goEqualFold s.Name (gs "hit"))).map Space.ID = [gs "zzz"])
    ∧ ResolveSpace [⟨gs "zzz", gs "hit"⟩, ⟨gs "hit", gs "other"⟩] (gs "hit")
        ≠ Except.ok (gs "zzz") := by decide

/-- C5 (amended): when additionally no candidate's id equals the input,
the unique case-insensitive name match resolves to that candidate's id. -/
theorem resolveSpace_unique_name_match (spaces : List Space) (input : GoStr)
    (s : Space)
    (hnoid : ∀ t ∈ spaces, t.ID ≠ input)
    (hs : s ∈ spaces) (hmatch : goEqualFold s.Name input = true)
    (huniq : ∀ t ∈ spaces, goEqualFold t.Name input = true → t = s) :
    ResolveSpace spaces input = Except.ok s.ID := by
  have f1 : spaces.find? (fun t => t.ID == input) = none := by
    rw [List.find?_eq_none]; intro x hx; simpa using hnoid x hx
  have hsome : (spaces.find? (fun t => goEqualFold t.Name input)).isSome := by
    rw [List.find?_isSome]; exact ⟨s, hs, hmatch⟩
  obtain ⟨t, ht⟩ := Option.isSome_iff_exists.mp hsome
  have hpt := List.find?_some ht
  have hts : t = s := huniq t (List.mem_of_find?_eq_some ht) (by simpa using hpt)
  rw [ResolveSpace, f1, ht]
  show Except.ok t.ID = Except.ok s.ID
  rw [hts]

/-- Witness for the amended C5: "alpha" uniquely matches the name "Alpha"
case-insensitively and no id equals the input. -/
theorem resolveSpace_unique_name_match_witness :
    ResolveSpace [⟨gs "a1", gs "Alpha"⟩, ⟨gs "a2", gs "Beta"⟩] (gs "alpha") =
      Except.ok (gs "a1") := by
  exact resolveSpace_unique_name_match _ _ ⟨gs "a1", gs "Alpha"⟩
    (by decide) (by decide) (by decide) (by decide)

/-- Counterexample for C2: with two candidates Alpha and Beta, the empty
input does NOT fall through to the pass-through step; the empty string is
a substring of every lower-cased name, both candidates partially match,
and ResolveSpace returns the multiple-match error instead of the input. -/
theorem resolveSpace_empty_input_cex :
    ResolveSpace [⟨gs "a1", gs "Alpha"⟩, ⟨gs "a2", gs "Beta"⟩] [] ≠
      Except.ok [] := by decide

/-- C2 (amended): ResolveSpace never raises on the empty input, but the
empty input reaches the pass-through step only when the candidate list is
empty.  When no candidate has an empty id or name, the empty input matches
every candidate at the partial-match step (the empty string is a substring
of every name), so an empty list yields the input back, a singleton list
resolves to its candidate, and two or more candidates yield the
multiple-match error. -/
theorem resolveSpace_empty_input (spaces : List Space)
    (hid : ∀ s ∈ spaces, s.ID ≠ ([] : GoStr))
    (hname : ∀ s ∈ spaces, s.Name ≠ ([] : GoStr)) :
    ResolveSpace spaces [] =
      match spaces with
      | [] => Except.ok ([] : GoStr)
      | [s] => Except.ok s.ID
      | _ => Except.error (ambiguousMsg [] spaces) := by
  have f1 : spaces.find? (fun s => s.ID == ([] : GoStr)) = none := by
    rw [List.find?_eq_none]; intro x hx; simpa using hid x hx
  have f2 : spaces.find? (fun s => goEqualFold s.Name ([] : GoStr)) = none := by
    rw [List.find?_eq_none]; intro x hx
    intro hEq
    apply hname x hx
    have hmap : x.Name.map Char.toLower = [] := by
      simpa [goEqualFold, goToLower] using hEq
    simpa using hmap
  have f3 : spaces.filter
      (fun s => goContains (goToLower s.Name) (goToLower ([] : GoStr))) = spaces := by
    rw [List.filter_eq_self]; intro x hx
    simp [goContains, goToLower, List.nil_infix]
  rw [ResolveSpace, f1, f2, f3]
  rcases spaces with _ | ⟨a, _ | ⟨b, t⟩⟩ <;> rfl

/-- Witness for the amended C2: two candidates with non-empty ids and
names give the multiple-match error on empty input. -/
theorem resolveSpace_empty_input_witness :
    ResolveSpace [⟨gs "b1", gs "Gamma"⟩, ⟨gs "b2", gs "Delta"⟩] [] =
      Except.error (ambiguousMsg []
        [⟨gs "b1", gs "Gamma"⟩, ⟨gs "b2", gs "Delta"⟩]) := by
  exact resolveSpace_empty_input
    [⟨gs "b1", gs "Gamma"⟩, ⟨gs "b2", gs "Delta"⟩] (by decide) (by decide)

/-- C6: when the partial-match step finds two or more candidates (and no
earlier step matched), ResolveSpace returns an error - never a silent
pick - whose message lists exactly the first five matches (at most five)
by name and id and carries the omitted-count suffix exactly when more
than five matched. -/
theorem resolveSpace_ambiguous (spaces : List Space) (input : GoStr)
    (matched : List Space)
    (hm : matched = spaces.filter
      (fun s => goContains (goToLower s.Name) (goToLower input)))
    (h1 : ∀ s ∈ spaces, s.ID ≠ input)
    (h2 : ∀ s ∈ spaces, goEqualFold s.Name input = false)
    (hlen : 2 ≤ matched.length) :
    ResolveSpace spaces input =
      Except.error (ambiguousHeader input
        ++ ((matched.take 5).map matchLine).flatten
        ++ (if 5 < matched.length then moreSuffix (matched.length - 5) else []))
    ∧ (matched.take 5).length = min 5 matched.length := by
  constructor
  · have f1 : spaces.find? (fun s => s.ID == input) = none := by
      rw [List.find?_eq_none]; intro x hx; simpa using h1 x hx
    have f2 : spaces.find? (fun s => goEqualFold s.Name input) = none := by
      rw [List.find?_eq_none]; intro x hx; simp [h2 x hx]
    rw [ResolveSpace, f1, f2, ← hm]
    rcases matched with _ | ⟨a, _ | ⟨b, t⟩⟩
    · simp at hlen
    · simp at hlen
    · rfl
  · simp [List.length_take]

/-- Witness list for C6: seven candidates whose names all contain the
input "project". -/
def projList : List Space :=
  [⟨gs "p1", gs "Project 1"⟩, ⟨gs "p2", gs "Project 2"⟩,
   ⟨gs "p3", gs "Project 3"⟩, ⟨gs "p4", gs "Project 4"⟩,
   ⟨gs "p5", gs "Project 5"⟩, ⟨gs "p6", gs "Project 6"⟩,
   ⟨gs "p7", gs "Project 7"⟩]

/-- Witness for C6: seven partial matches give the error listing the first
five and noting two more were omitted. -/
theorem resolveSpace_ambiguous_witness :
    ResolveSpace projList (gs "project") =
      Except.error (ambiguousHeader (gs "project")
        ++ ((projList.take 5).map matchLine).flatten
        ++ (if 5 < projList.length then moreSuffix (projList.length - 5) else []))
    ∧ (projList.take 5).length = min 5 projList.length := by
  exact resolveSpace_ambiguous projList (gs "project") projList
    (by decide) (by decide) (by decide) (by decide)

/-- internal/output.Truncate: returns the string untouched when it fits,
otherwise slices to max - 3 characters and appends the ellipsis.  The Go
slice s[:max-3] panics when max - 3 is negative; the panic is modelled as
none. -/
def Truncate (s : GoStr) (max : Int) : Option GoStr :=
  if (s.length : Int) ≤ max then some s
  else if max - 3 < 0 then none
  else some (s.take (max - 3).toNat ++ gs "...")

/-- internal/output.Table: headers, appended rows and the width, padding
and truncation options. -/
structure Table where
  Headers : List GoStr
  Rows : List (List GoStr)
  MinWidth : Int
  MaxWidth : Int
  Padding : Int
  TruncateLong : Bool
  ColumnWidths : List Int
  ColumnTruncate : List Bool

/-- internal/output.NewTable: default minimum width 5, maximum width 80,
padding 2, no truncation, and per-column settings sized to the headers
(zero width meaning unset, truncation off). -/
def NewTable (headers : List GoStr) : Table where
  Headers := headers
  Rows := []
  MinWidth := 5
  MaxWidth := 80
  Padding := 2
  TruncateLong := false
  ColumnWidths := List.replicate headers.length 0
  ColumnTruncate := List.replicate headers.length false

/-- Table.AddRow appends a row. -/
def Table.AddRow (t : Table) (row : List GoStr) : Table :=
  { t with Rows := t.Rows ++ [row] }

/-- Table.SetMinWidth. -/
def Table.SetMinWidth (t : Table) (width : Int) : Table :=
  { t with MinWidth := width }

/-- Table.SetMaxWidth. -/
def Table.SetMaxWidth (t : Table) (width : Int) : Table :=
  { t with MaxWidth := width }

/-- Table.SetPadding. -/
def Table.SetPadding (t : Table) (padding : Int) : Table :=
  { t with Padding := padding }

/-- Table.SetTruncate. -/
def Table.SetTruncate (t : Table) (b : Bool) : Table :=
  { t with TruncateLong := b }

/-- Table.SetColumnWidth: only stores the width when the index is in
range, exactly as the Go guard does. -/
def Table.SetColumnWidth (t : Table) (columnIndex width : Int) : Table :=
  if 0 ≤ columnIndex ∧ columnIndex < (t.ColumnWidths.length : Int) then
    { t with ColumnWidths := t.ColumnWidths.set columnIndex.toNat width }
  else t

/-- Table.SetColumnTruncate, with the same index guard. -/
def Table.SetColumnTruncate (t : Table) (columnIndex : Int) (b : Bool) : Table :=
  if 0 ≤ columnIndex ∧ columnIndex < (t.ColumnTruncate.length : Int) then
    { t with ColumnTruncate := t.ColumnTruncate.set columnIndex.toNat b }
  else t

/-- The widest entry of column i before clamping: the Go loop starts each
widths[i] at the header length and then scans every row, replacing
widths[i] by any longer cell i (cells past the header count are guarded
away by i < len(widths)).  The scan updates each widths[i] independently,
so folding over the rows one column at a time computes the same value. -/
def colRaw (t : Table) (i : Nat) : Int :=
  t.Rows.foldl
    (fun w row =>
      match row[i]? with
      | some cell => if (cell.length : Int) > w then (cell.length : Int) else w
      | none => w)
    (((t.Headers.getD i []).length : Int))

/-- The min-raise and the two clamps of Table.String: raise below-minimum
widths to MinWidth, then clamp to the per-column width when one is set
(positive) and exceeded, otherwise clamp to the positive global MaxWidth
when exceeded.  NewTable keeps ColumnWidths as long as Headers, so the Go
access t.ColumnWidths[i] is total there; getD matches it on that shape. -/
def clampWidth (t : Table) (i : Nat) (w : Int) : Int :=
  let w1 := if w < t.MinWidth then t.MinWidth else w
  if t.ColumnWidths.getD i 0 > 0 ∧ w1 > t.ColumnWidths.getD i 0 then
    t.ColumnWidths.getD i 0
  else if t.MaxWidth > 0 ∧ w1 > t.MaxWidth then t.MaxWidth
  else w1

/-- The final width of every column. -/
def finalWidths (t : Table) : List Int :=
  (List.range t.Headers.length).map (fun i => clampWidth t i (colRaw t i))

/-- fmt.Sprintf with a %-Ns verb: left-justify by padding with spaces up
to the width, never cutting the string. -/
def padRight (s : GoStr) (w : Int) : GoStr :=
  s ++ List.replicate (w.toNat - s.length) ' '

/-- The Go loops write the column padding before every cell except the
first. -/
def joinCells (pad : GoStr) : List GoStr → GoStr
  | [] => []
  | c :: rest => c ++ (rest.map (fun x => pad ++ x)).flatten

/-- The padding string between columns. -/
def sepSpaces (t : Table) : GoStr := List.replicate t.Padding.toNat ' '

/-- The header line: every header left-justified to its column width,
never truncated. -/
def headerLine (t : Table) (widths : List Int) : GoStr :=
  joinCells (sepSpaces t) (List.zipWith padRight t.Headers widths)

/-- The separator line of dashes. -/
def dashLine (t : Table) (widths : List Int) : GoStr :=
  joinCells (sepSpaces t) (widths.map (fun w => List.replicate w.toNat '-'))

/-- One data cell: truncated with ellipsis when the table-wide flag or the
column's flag asks for it and the cell overflows its column, otherwise
printed in full (padded either way). -/
def renderCell (t : Table) (widths : List Int) (i : Nat) (cell : GoStr) :
    Option GoStr :=
  let w := widths.getD i 0
  let shouldTruncate :=
    (t.TruncateLong
        || (decide (i < t.ColumnTruncate.length) && t.ColumnTruncate.getD i false))
      && decide ((cell.length : Int) > w)
  if shouldTruncate then (Truncate cell w).map (fun s => padRight s w)
  else some (padRight cell w)

/-- The cells of one data row from position i on, each rendered by
renderCell. -/
def renderCells (t : Table) (widths : List Int) : Nat → List GoStr → Option (List GoStr)
  | _, [] => some []
  | i, c :: rest => do
    let s ← renderCell t widths i c
    let ss ← renderCells t widths (i + 1) rest
    pure (s :: ss)

/-- One data row: the Go loop skips cells whose index reaches the width
count (extra cells of an over-long row), renders the rest, and ends the
line with a newline. -/
def renderRow (t : Table) (widths : List Int) (row : List GoStr) : Option GoStr :=
  (renderCells t widths 0 (row.take widths.length)).map
    (fun cs => joinCells (sepSpaces t) cs ++ gs "\n")

/-- All data rows, concatenated. -/
def renderRows (t : Table) (widths : List Int) : List (List GoStr) → Option GoStr
  | [] => some []
  | r :: rs => do
    let line ← renderRow t widths r
    let rest ← renderRows t widths rs
    pure (line ++ rest)

/-- internal/output Table.String: the empty string for zero headers,
otherwise the header line, the dash line and every data row. -/
def Table.String (t : Table) : Option GoStr :=
  if t.Headers.length = 0 then some []
  else
    (renderRows t (finalWidths t) t.Rows).map
      (fun rows =>
        headerLine t (finalWidths t) ++ gs "\n"
          ++ dashLine t (finalWidths t) ++ gs "\n" ++ rows)

/-- C9: a table with zero headers renders as the empty string - a normal
return, not an error - whatever the rows and the width, padding and
truncation options hold: the zero-header check is the first statement of
Table.String. -/
theorem tableString_empty_headers (t : Table) (h : t.Headers = []) :
    t.String = some [] := by
  simp [Table.String, h]

/-- Witness for C9: empty headers with leftover rows, a negative minimum
width, a zero maximum width, negative padding and truncation flags still
render as the empty string. -/
theorem tableString_empty_headers_witness :
    Table.String ⟨[], [[gs "x", gs "y"]], -7, 0, -2, true, [3], [true]⟩
      = some [] := by
  exact tableString_empty_headers _ rfl

/-- Counterexample for C3: for the 5-character cell "hello" in a column of
final width 3, marked truncatable, the code produces the bare ellipsis
"..." - not the first 3 literal characters "hel" with no ellipsis - and at
width 2 the slice index max - 3 is negative and the code panics rather
than degrading. -/
theorem truncate_small_cex :
    Truncate (gs "hello") 3 = some (gs "...")
    ∧ gs "..." ≠ gs "hel"
    ∧ Truncate (gs "hello") 2 = none := by decide

/-- C3 (amended): for a cell longer than a width of at most 3, Truncate
returns the bare ellipsis when the width is exactly 3 (the slice keeps
zero literal characters) and panics on the negative slice bound when the
width is below 3; it never returns ellipsis-free literal characters. -/
theorem truncate_small_width (s : GoStr) (max : Int)
    (hlong : max < (s.length : Int)) (hle : max ≤ 3) :
    Truncate s max = if max = 3 then some (gs "...") else none := by
  simp only [Truncate]
  rw [if_neg (by omega)]
  rcases eq_or_lt_of_le hle with h3 | hlt
  · subst h3
    rw [if_neg (by omega), if_pos rfl]
    norm_num
  · rw [if_pos (by omega), if_neg (by omega)]

/-- Witness for the amended C3: a 4-character cell at width 2 panics. -/
theorem truncate_small_width_witness :
    Truncate (gs "abcd") 2 = none := by
  have h := truncate_small_width (gs "abcd") 2 (by decide) (by decide)
  simpa using h

/-- The Go width scan updates widths[i] by comparison; per column it is
the same as folding with max, as long as the running value stays
non-negative (which it does: it starts at a length). -/
theorem foldl_width_eq (rows : List (List GoStr)) (i : Nat) :
    ∀ init : Int, 0 ≤ init →
      rows.foldl
        (fun w row =>
          match row[i]? with
          | some cell => if (cell.length : Int) > w then (cell.length : Int) else w
          | none => w) init
      = rows.foldl (fun w row => max w (((row.getD i []).length : Int))) init := by
  induction rows with
  | nil => intro init _; rfl
  | cons r rows ih =>
    intro init h0
    rw [List.foldl_cons, List.foldl_cons]
    have hstep : (match r[i]? with
        | some cell => if (cell.length : Int) > init then (cell.length : Int) else init
        | none => init) = max init (((r.getD i []).length : Int)) := by
      rcases hr : r[i]? with _ | cell
      · have hd : r.getD i [] = [] := by
          rw [List.getD_eq_getElem?_getD, hr]; rfl
        rw [hd]
        show init = max init ((([] : GoStr).length : Int))
        simp only [List.length_nil, Nat.cast_zero]
        exact (max_eq_left h0).symm
      · have hd : r.getD i [] = cell := by
          rw [List.getD_eq_getElem?_getD, hr]; rfl
        rw [hd]
        show (if ((cell.length : Int)) > init then ((cell.length : Int)) else init)
          = max init ((cell.length : Int))
        rcases le_or_lt ((cell.length : Int)) init with hc | hc
        · rw [if_neg (by omega)]
          exact (max_eq_left hc).symm
        · rw [if_pos (by omega)]
          exact (max_eq_right hc.le).symm
    rw [hstep]
    refine ih _ ?_
    exact le_trans h0 (le_max_left _ _)

/-- The column-width rule exactly as the specification words it: maximum
of the header length and every cell length in the column, raised to the
minimum width, clamped to the per-column cap when one is set and exceeded,
otherwise clamped to the global maximum width when exceeded. -/
def specColWidth (t : Table) (i : Nat) : Int :=
  let base := t.Rows.foldl (fun w row => max w (((row.getD i []).length : Int)))
    (((t.Headers.getD i []).length : Int))
  let raised := max base t.MinWidth
  if 0 < t.ColumnWidths.getD i 0 ∧ t.ColumnWidths.getD i 0 < raised then
    t.ColumnWidths.getD i 0
  else if t.MaxWidth < raised then t.MaxWidth
  else raised

/-- The table of the specification's worked rendering example: headers ID
and NAME, one row, minimum width 5, column 1 capped at 10 and marked
truncatable. -/
def exTable : Table :=
  ((((NewTable [gs "ID", gs "NAME"]).AddRow
      [gs "123", gs "A very long name exceeding width"]).SetMinWidth
      5).SetColumnWidth 1 10).SetColumnTruncate 1 true

/-- C4: for a positive global maximum width (an invariant of the data
model), the final column width computed by Table.String is exactly the
specified formula; and on the worked example the NAME column is 10 wide,
its cell rendered as "A very ..." (10 characters ending in the ellipsis)
while the ID column shows "123" in full. -/
theorem table_column_widths (t : Table) (i : Nat) (hmax : 0 < t.MaxWidth) :
    clampWidth t i (colRaw t i) = specColWidth t i
    ∧ finalWidths exTable = [5, 10]
    ∧ exTable.String
        = some (gs "ID     NAME      \n-----  ----------\n123    A very ...\n") := by
  refine ⟨?_, by decide, by decide⟩
  have hraw : colRaw t i
      = t.Rows.foldl (fun w row => max w (((row.getD i []).length : Int)))
        (((t.Headers.getD i []).length : Int)) :=
    foldl_width_eq t.Rows i _ (Int.natCast_nonneg _)
  rw [hraw]
  simp only [clampWidth, specColWidth]
  have hr : (if (t.Rows.foldl (fun w row => max w (((row.getD i []).length : Int)))
        (((t.Headers.getD i []).length : Int))) < t.MinWidth then t.MinWidth
      else (t.Rows.foldl (fun w row => max w (((row.getD i []).length : Int)))
        (((t.Headers.getD i []).length : Int))))
      = max (t.Rows.foldl (fun w row => max w (((row.getD i []).length : Int)))
        (((t.Headers.getD i []).length : Int))) t.MinWidth := by
    rcases lt_or_ge (t.Rows.foldl (fun w row => max w (((row.getD i []).length : Int)))
        (((t.Headers.getD i []).length : Int))) t.MinWidth with h | h
    · rw [if_pos h]
      exact (max_eq_right h.le).symm
    · rw [if_neg (by omega)]
      exact (max_eq_left h).symm
  rw [hr]
  set raised := max (t.Rows.foldl (fun w row => max w (((row.getD i []).length : Int)))
    (((t.Headers.getD i []).length : Int))) t.MinWidth with hraised
  by_cases hcap : 0 < t.ColumnWidths.getD i 0 ∧ t.ColumnWidths.getD i 0 < raised
  · rw [if_pos ⟨hcap.1, hcap.2⟩, if_pos hcap]
  · rw [if_neg (fun h => hcap ⟨h.1, h.2⟩), if_neg hcap]
    by_cases hm : t.MaxWidth < raised
    · rw [if_pos ⟨hmax, hm⟩, if_pos hm]
    · rw [if_neg (fun h => hm h.2), if_neg hm]

/-- Witness for C4, at the example table's NAME column. -/
theorem table_column_widths_witness :
    clampWidth exTable 1 (colRaw exTable 1) = specColWidth exTable 1
    ∧ finalWidths exTable = [5, 10]
    ∧ exTable.String
        = some (gs "ID     NAME      \n-----  ----------\n123    A very ...\n") := by
  exact table_column_widths exTable 1 (by decide)

/-- Every member of a flattened list of strings appears contiguously in
the result. -/
theorem infix_of_mem_flatten {l : GoStr} {L : List GoStr} (h : l ∈ L) :
    l <:+: L.flatten := by
  induction L with
  | nil => cases h
  | cons a L ih =>
    rw [List.flatten_cons]
    rcases List.mem_cons.mp h with rfl | h
    · exact (List.prefix_append _ _).isInfix
    · exact (ih h).trans (List.suffix_append _ _).isInfix

/-- Every cell passed to joinCells appears contiguously in the joined
line. -/
theorem infix_of_mem_joinCells (pad : GoStr) (cs : List GoStr) (c : GoStr)
    (h : c ∈ cs) : c <:+: joinCells pad cs := by
  rcases cs with _ | ⟨c0, rest⟩
  · cases h
  · show c <:+: c0 ++ (rest.map (fun x => pad ++ x)).flatten
    rcases List.mem_cons.mp h with rfl | h
    · exact (List.prefix_append _ _).isInfix
    · have h1 : pad ++ c ∈ rest.map (fun x => pad ++ x) :=
        List.mem_map_of_mem _ h
      have h2 : pad ++ c <:+: (rest.map (fun x => pad ++ x)).flatten :=
        infix_of_mem_flatten h1
      have h3 : c <:+: pad ++ c := (List.suffix_append _ _).isInfix
      exact (h3.trans h2).trans (List.suffix_append _ _).isInfix

/-- The final widths list is as long as the headers list. -/
theorem finalWidths_length (t : Table) :
    (finalWidths t).length = t.Headers.length := by
  simp [finalWidths]

/-- C8: every header appears in full - never truncated - inside the header
line of the rendered output, whatever the truncation flags and caps say,
and the header line opens the output: headers are only ever left-justified
with padRight, which never cuts its argument. -/
theorem headers_never_truncated (t : Table) (out : GoStr)
    (hout : t.String = some out) (i : Nat) (hi : i < t.Headers.length) :
    t.Headers.getD i [] <:+: headerLine t (finalWidths t)
    ∧ headerLine t (finalWidths t) <+: out := by
  have hwlen : (finalWidths t).length = t.Headers.length := finalWidths_length t
  constructor
  · have hz : i < (List.zipWith padRight t.Headers (finalWidths t)).length := by
      rw [List.length_zipWith, hwlen]
      omega
    have hiw : i < (finalWidths t).length := by omega
    have hmem := List.getElem_mem hz
    have hel : (List.zipWith padRight t.Headers (finalWidths t))[i]
        = padRight (t.Headers[i]) ((finalWidths t)[i]) := List.getElem_zipWith
    have hgd : t.Headers.getD i [] = t.Headers[i] := by
      rw [List.getD_eq_getElem?_getD, List.getElem?_eq_getElem hi]; rfl
    rw [hgd]
    have hpre : t.Headers[i] <+: padRight (t.Headers[i]) ((finalWidths t)[i]) :=
      List.prefix_append _ _
    have hconv : (List.zipWith padRight t.Headers (finalWidths t))[i]
        <:+: joinCells (sepSpaces t) (List.zipWith padRight t.Headers (finalWidths t)) :=
      infix_of_mem_joinCells _ _ _ hmem
    rw [hel] at hconv
    exact hpre.isInfix.trans hconv
  · have hne : ¬ t.Headers.length = 0 := by omega
    simp only [Table.String, if_neg hne] at hout
    obtain ⟨rows, _, hf⟩ := Option.map_eq_some'.mp hout
    rw [← hf]
    exact (((List.prefix_append _ _).trans (List.prefix_append _ _)).trans
      (List.prefix_append _ _)).trans (List.prefix_append _ _)

/-- Witness table for C8: a single 10-character header in a column capped
at width 5 and marked truncatable. -/
def exW : Table :=
  (((NewTable [gs "IDENTIFIER"]).AddRow [gs "x"]).SetColumnWidth 0 5).SetColumnTruncate 0 true

/-- Witness for C8: the header IDENTIFIER overflows its capped width 5 in
a truncatable column and still appears in full at the head of the
output. -/
theorem headers_never_truncated_witness :
    exW.Headers.getD 0 [] <:+: headerLine exW (finalWidths exW)
    ∧ headerLine exW (finalWidths exW) <+: gs "IDENTIFIER\n-----\nx    \n" := by
  exact headers_never_truncated exW (gs "IDENTIFIER\n-----\nx    \n")
    (by decide) 0 (by decide)

/-- Counterexample for C10 as stated: a table whose single row has more
cells than headers can still panic while rendering - the extra cell is
ignored, but the first cell overflows a truncatable column capped at
width 2, and Truncate hits the negative slice bound. -/
theorem tableString_mismatched_rows_cex :
    Table.String ((((NewTable [gs "H"]).AddRow
      [gs "looong", gs "extra"]).SetColumnWidth 0 2).SetColumnTruncate 0 true)
      = none := by decide

/-- The final widths list, read at a column index, is that column's
clamped width. -/
theorem finalWidths_getD (t : Table) (i : Nat) (hi : i < t.Headers.length) :
    (finalWidths t).getD i 0 = clampWidth t i (colRaw t i) := by
  rw [finalWidths, List.getD_eq_getElem?_getD, List.getElem?_map,
    List.getElem?_range hi]
  rfl

/-- A cell render cannot panic when the column is wide enough for the
ellipsis whenever its truncation is on. -/
theorem renderCell_isSome (t : Table) (widths : List Int) (i : Nat) (cell : GoStr)
    (h3 : (t.TruncateLong
        || (decide (i < t.ColumnTruncate.length) && t.ColumnTruncate.getD i false)) = true
      → 3 ≤ widths.getD i 0) :
    (renderCell t widths i cell).isSome := by
  simp only [renderCell]
  by_cases hs : ((t.TruncateLong
      || (decide (i < t.ColumnTruncate.length) && t.ColumnTruncate.getD i false))
      && decide ((cell.length : Int) > widths.getD i 0)) = true
  · rw [if_pos hs]
    have hs2 := Bool.and_eq_true _ _ ▸ hs
    have hflag := hs2.1
    have hgt : (cell.length : Int) > widths.getD i 0 := of_decide_eq_true hs2.2
    have hw : 3 ≤ widths.getD i 0 := h3 hflag
    rw [Truncate, if_neg (by omega), if_neg (by omega)]
    rfl
  · rw [if_neg hs]
    rfl

/-- Rendering the cells of one row from position i cannot panic when no
visited position can. -/
theorem renderCells_isSome (t : Table) (widths : List Int)
    (hcell : ∀ j, j < widths.length → ∀ c, (renderCell t widths j c).isSome) :
    ∀ (cells : List GoStr) (i : Nat), i + cells.length ≤ widths.length →
      (renderCells t widths i cells).isSome := by
  intro cells
  induction cells with
  | nil => intro i _; rfl
  | cons c rest ih =>
    intro i hlen
    rw [List.length_cons] at hlen
    obtain ⟨s, hs⟩ := Option.isSome_iff_exists.mp (hcell i (by omega) c)
    obtain ⟨ss, hss⟩ := Option.isSome_iff_exists.mp (ih (i + 1) (by omega))
    simp [renderCells, hs, hss]

/-- A whole row render cannot panic when no column position can. -/
theorem renderRow_isSome (t : Table) (widths : List Int)
    (hcell : ∀ j, j < widths.length → ∀ c, (renderCell t widths j c).isSome)
    (row : List GoStr) : (renderRow t widths row).isSome := by
  rw [renderRow]
  have h := renderCells_isSome t widths hcell (row.take widths.length) 0
    (by rw [Nat.zero_add, List.length_take]; exact min_le_left _ _)
  obtain ⟨v, hv⟩ := Option.isSome_iff_exists.mp h
  rw [hv]
  rfl

/-- Rendering all rows cannot panic when no row render can. -/
theorem renderRows_isSome (t : Table) (widths : List Int)
    (hcell : ∀ j, j < widths.length → ∀ c, (renderCell t widths j c).isSome) :
    ∀ rows : List (List GoStr), (renderRows t widths rows).isSome := by
  intro rows
  induction rows with
  | nil => rfl
  | cons r rs ih =>
    obtain ⟨line, hline⟩ :=
      Option.isSome_iff_exists.mp (renderRow_isSome t widths hcell r)
    obtain ⟨rest, hrest⟩ := Option.isSome_iff_exists.mp ih
    simp [renderRows, hline, hrest]

/-- Replacing the stored rows does not change how a cell list renders: the
cell renderer reads only the truncation options. -/
theorem renderCells_rows_irrel (t : Table) (R : List (List GoStr))
    (widths : List Int) :
    ∀ (cells : List GoStr) (i : Nat),
      renderCells { t with Rows := R } widths i cells
        = renderCells t widths i cells := by
  intro cells
  induction cells with
  | nil => intro i; rfl
  | cons c rest ih =>
    intro i
    simp only [renderCells]
    simp only [ih]
    rfl

/-- Replacing the stored rows does not change how one given row renders. -/
theorem renderRows_rows_irrel (t : Table) (R : List (List GoStr))
    (widths : List Int) :
    ∀ rows, renderRows { t with Rows := R } widths rows
      = renderRows t widths rows := by
  intro rows
  induction rows with
  | nil => rfl
  | cons r rs ih =>
    simp only [renderRows]
    simp only [ih]
    have hr : renderRow { t with Rows := R } widths r = renderRow t widths r := by
      rw [renderRow, renderRow, renderCells_rows_irrel]
      rfl
    rw [hr]

/-- A row renders the same as its first N cells when N is the column
count: the Go loop skips the rest anyway. -/
theorem renderRow_take (t : Table) (widths : List Int) (N : Nat)
    (hN : widths.length = N) (row : List GoStr) :
    renderRow t widths (row.take N) = renderRow t widths row := by
  rw [renderRow, renderRow, List.take_take, hN, min_self]

/-- Cutting every row to the column count changes nothing about how the
rows render. -/
theorem renderRows_map_take (t : Table) (widths : List Int) (N : Nat)
    (hN : widths.length = N) :
    ∀ rows, renderRows t widths (rows.map (fun r => r.take N))
      = renderRows t widths rows := by
  intro rows
  induction rows with
  | nil => rfl
  | cons r rs ih =>
    simp only [List.map_cons, renderRows]
    simp only [ih, renderRow_take t widths N hN]

/-- Cutting every row to the header count changes no raw column width:
the Go width scan already ignores cells past the header count. -/
theorem colRaw_take (t : Table) (i : Nat) (hi : i < t.Headers.length) :
    colRaw { t with Rows := t.Rows.map (fun r => r.take t.Headers.length) } i
      = colRaw t i := by
  rw [colRaw, colRaw]
  show (t.Rows.map (fun r => r.take t.Headers.length)).foldl _ _
    = t.Rows.foldl _ _
  rw [List.foldl_map]
  congr 1
  funext w r
  rw [List.getElem?_take, if_pos hi]

/-- Cutting every row to the header count leaves the final widths
unchanged. -/
theorem finalWidths_take (t : Table) :
    finalWidths { t with Rows := t.Rows.map (fun r => r.take t.Headers.length) }
      = finalWidths t := by
  rw [finalWidths, finalWidths]
  show (List.range t.Headers.length).map _ = (List.range t.Headers.length).map _
  apply List.map_congr_left
  intro i hi
  rw [List.mem_range] at hi
  rw [colRaw_take t i hi]
  rfl

/-- C10 (amended): over mismatched row shapes Table.String never raises
because of the shape - extra cells of an over-long row are ignored both in
the width computation and in the output (rendering equals rendering with
every row cut to the header count), and a short row renders just its own
cells - provided no truncatable column is clamped below width 3; below
width 3 the orthogonal Truncate panic of C3 can still fire. -/
theorem tableString_mismatched_rows (t : Table)
    (hno : ∀ i ∈ List.range t.Headers.length,
      (t.TruncateLong || t.ColumnTruncate.getD i false) = true →
        3 ≤ clampWidth t i (colRaw t i)) :
    (∃ out, t.String = some out)
    ∧ t.String
        = Table.String
            { t with Rows := t.Rows.map (fun r => r.take t.Headers.length) } := by
  have hcell : ∀ j, j < (finalWidths t).length → ∀ c,
      (renderCell t (finalWidths t) j c).isSome := by
    intro j hj c
    rw [finalWidths_length] at hj
    apply renderCell_isSome
    intro hflag
    rw [finalWidths_getD t j hj]
    apply hno j (List.mem_range.mpr hj)
    rcases Bool.or_eq_true _ _ ▸ hflag with hTL | hCT
    · rw [hTL, Bool.true_or]
    · rw [Bool.and_eq_true] at hCT
      rw [hCT.2, Bool.or_true]
  have hrows := renderRows_isSome t (finalWidths t) hcell t.Rows
  constructor
  · by_cases h0 : t.Headers.length = 0
    · exact ⟨[], by simp [Table.String, h0]⟩
    · obtain ⟨v, hv⟩ := Option.isSome_iff_exists.mp hrows
      refine ⟨headerLine t (finalWidths t) ++ gs "\n"
        ++ dashLine t (finalWidths t) ++ gs "\n" ++ v, ?_⟩
      simp only [Table.String, if_neg h0]
      rw [hv]
      rfl
  · by_cases h0 : t.Headers.length = 0
    · have h0' : ({ t with Rows := t.Rows.map (fun r => r.take t.Headers.length) }
          : Table).Headers.length = 0 := h0
      simp [Table.String, h0, h0']
    · have h0' : ¬ ({ t with Rows := t.Rows.map (fun r => r.take t.Headers.length) }
          : Table).Headers.length = 0 := h0
      simp only [Table.String, if_neg h0, if_neg h0']
      simp only [finalWidths_take]
      rw [renderRows_rows_irrel t (t.Rows.map (fun r => r.take t.Headers.length))
        (finalWidths t)]
      rw [renderRows_map_take t (finalWidths t) t.Headers.length (finalWidths_length t)]
      rfl

/-- Witness table for C10: two headers, one row with an extra third cell,
one row with a single cell. -/
def exMm : Table :=
  ((NewTable [gs "H1", gs "H2"]).AddRow [gs "a", gs "b", gs "c"]).AddRow [gs "d"]

/-- Witness for C10: the mismatched table renders, and renders exactly as
its shape-corrected counterpart. -/
theorem tableString_mismatched_rows_witness :
    (∃ out, exMm.String = some out)
    ∧ exMm.String
        = Table.String
            { exMm with Rows := exMm.Rows.map (fun r => r.take exMm.Headers.length) } := by
  exact tableString_mismatched_rows exMm (by decide)
